import Mathlib

/-!
Verification of the Action Execution Framework and the meeting-intelligence
algorithm of the exchange-copilot backend (src/backend/actions/base.py and
src/backend/actions/definitions.py), as a shallow embedding in Lean 4.

Modelling conventions:
* Python values flowing through the framework (tool results, context
  variables, meeting and email records) are embedded as the JSON-like
  inductive `Value`.
* Real time (durations, timestamps) and process identity (uuid execution
  ids) are not modelled; the corresponding record fields are kept with the
  constant placeholder values their dataclass defaults give them.
* An action body (`execute`) is embedded as a `Prog`: a tree whose `call`
  nodes invoke a tool and continue with its (possibly JSON-parsed) value,
  and whose leaves either return a result through the `complete` / `fail`
  helpers or raise an uncaught exception (`throwP`).  A tool error raised
  inside `call_tool` is re-raised and, as in every action of this
  repository, is not caught by `execute`; it propagates to `run`.
* Exceptions are modelled by their message string (`Except String`).
-/

namespace ExchangeCopilot

/-- A Python/JSON-like value, the payload type flowing through the
framework: tool results, arguments, context variables, meeting and email
records. -/
inductive Value where
  | null : Value
  | bool : Bool → Value
  | num : Int → Value
  | str : String → Value
  | list : List Value → Value
  | dict : List (String × Value) → Value

/-- Python truthiness of a `Value` (`if x:`): `None`, `0`, `""` and empty
containers are falsy. -/
def Value.truthy : Value → Bool
  | .null => false
  | .bool b => b
  | .num n => n != 0
  | .str s => s != ""
  | .list xs => !xs.isEmpty
  | .dict xs => !xs.isEmpty

/-- Model of Python `str(v)` for the non-string values the code may feed to
string operations.  Only the `str` case is exercised by any claim; the
renderings of the other cases are rough stand-ins. -/
def pyStr : Value → String
  | .null => "None"
  | .bool true => "True"
  | .bool false => "False"
  | .num n => toString n
  | .str s => s
  | .list _ => "[...]"
  | .dict _ => "\x7b...\x7d"

/-- `d.get(k)` on a Python dict (default `None`); on a non-dict the model
returns `None` (Python would raise, a path no claim reaches). -/
def Value.getKey : Value → String → Value
  | .dict xs, k => (xs.lookup k).getD .null
  | _, _ => .null

/-- `d.get(k, default)` on a Python dict. -/
def Value.getKeyD : Value → String → Value → Value
  | .dict xs, k, dflt => (xs.lookup k).getD dflt
  | _, _, dflt => dflt

/-- `lst[0]` guarded by truthiness in the source: first element of a list
value. -/
def firstItem : Value → Value
  | .list (x :: _) => x
  | _ => .null

/-- `ActionStatus` (base.py lines 24-31). -/
inductive ActionStatus where
  | pending
  | running
  | success
  | Partial
  | failed
  | skipped
deriving DecidableEq, Repr

/-- The `.value` string of each `ActionStatus` member. -/
def ActionStatus.value : ActionStatus → String
  | .pending => "pending"
  | .running => "running"
  | .success => "success"
  | .Partial => "partial"
  | .failed => "failed"
  | .skipped => "skipped"

/-- `ToolCall` (base.py lines 34-42): record of a single tool invocation.
`duration_ms` and `timestamp` are unmodelled time and are kept at constant
placeholders. -/
structure ToolCall where
  tool_name : String
  arguments : List (String × Value)
  result : Option Value := none
  error : Option String := none
  duration_ms : Nat := 0
  timestamp : String := ""

/-- `ActionResult` (base.py lines 55-65).  `duration_ms`, `execution_id`
and `timestamp` are unmodelled time/uuid placeholders. -/
structure ActionResult where
  action_name : String
  status : ActionStatus
  output : Option Value := none
  error : Option String := none
  tool_calls : List ToolCall := []
  duration_ms : Nat := 0
  execution_id : String := ""
  timestamp : String := ""

/-- `tools_used` property (base.py lines 67-70). -/
def ActionResult.tools_used (r : ActionResult) : List String :=
  r.tool_calls.map (·.tool_name)

/-- The mutable per-run state of an `Action` instance: the accumulated
`self._tool_calls` trace. -/
structure ActionState where
  tool_calls : List ToolCall := []

/-- The injected tool registry `self._tools`: a capability map from tool
name to a callable that either returns a value or raises (error message). -/
abbrev Tools : Type := List (String × (Value → Except String Value))

/-- Does an `Except` hold an error? -/
def isError {ε α : Type} : Except ε α → Bool
  | .error _ => true
  | .ok _ => false

/-! ### Model of `json.loads`

`base.py` feeds tool results and `to_dict` payloads through the Python
standard-library parser `json.loads`.  The model below is a recursive
descent parser over the JSON grammar; numbers are restricted to integers
(fractions and exponents are rejected: no claim involves them) and string
escapes to the common single-character ones (no claim involves the others).
A failed parse models the raised `json.JSONDecodeError`. -/

/-- JSON whitespace. -/
def jsonWs (c : Char) : Bool := c = ' ' || c = '\t' || c = '\n' || c = '\r'

/-- Skip leading JSON whitespace. -/
def skipWs (cs : List Char) : List Char := cs.dropWhile jsonWs

/-- Parse the body of a JSON string literal, after its opening quote;
returns the decoded string and the input after the closing quote. -/
def parseStringBody : List Char → Except String (String × List Char)
  | [] => .error "unterminated string"
  | c :: rest =>
    if c = '"' then .ok ("", rest)
    else if c = '\\' then
      match rest with
      | [] => .error "truncated escape"
      | e :: rest2 =>
        let dec : Except String Char :=
          if e = '"' then .ok '"'
          else if e = '\\' then .ok '\\'
          else if e = '/' then .ok '/'
          else if e = 'n' then .ok '\n'
          else if e = 't' then .ok '\t'
          else if e = 'r' then .ok '\r'
          else .error "unsupported escape"
        match dec with
        | .error m => .error m
        | .ok ch =>
          match parseStringBody rest2 with
          | .ok (s, rem) => .ok (String.mk (ch :: s.data), rem)
          | .error m => .error m
    else
      match parseStringBody rest with
      | .ok (s, rem) => .ok (String.mk (c :: s.data), rem)
      | .error m => .error m

/-- Decimal digits to a natural number. -/
def digitsToNat (ds : List Char) : Nat :=
  ds.foldl (fun a c => a * 10 + (c.toNat - 48)) 0

/-- Parse a JSON number (integers only in this model). -/
def parseNumber (cs : List Char) : Except String (Value × List Char) :=
  let signed := match cs with
    | '-' :: t => (true, t)
    | _ => (false, cs)
  let ds := signed.2.takeWhile Char.isDigit
  let rest := signed.2.dropWhile Char.isDigit
  if ds.isEmpty then .error "invalid number"
  else
    match rest with
    | '.' :: _ => .error "fractional numbers not modelled"
    | 'e' :: _ => .error "exponent numbers not modelled"
    | 'E' :: _ => .error "exponent numbers not modelled"
    | _ =>
      .ok (.num (if signed.1 then -(digitsToNat ds : Int) else (digitsToNat ds : Int)), rest)

/-- Check a fixed literal prefix (for `true` / `false` / `null`). -/
def expectLit (lit : List Char) (cs : List Char) : Except String (List Char) :=
  if lit.isPrefixOf cs then .ok (cs.drop lit.length) else .error "invalid literal"

mutual

/-- Parse one JSON value; `fuel` bounds the recursion depth (always
sufficient when instantiated with the input length). -/
def parseValue : Nat → List Char → Except String (Value × List Char)
  | 0, _ => .error "depth limit"
  | fuel + 1, cs =>
    match skipWs cs with
    | [] => .error "expecting value"
    | c :: rest =>
      if c = '{' then
        match skipWs rest with
        | '}' :: rem => .ok (.dict [], rem)
        | _ => parseFields fuel rest []
      else if c = '[' then
        match skipWs rest with
        | ']' :: rem => .ok (.list [], rem)
        | _ => parseItems fuel rest []
      else if c = '"' then
        match parseStringBody rest with
        | .ok (s, rem) => .ok (.str s, rem)
        | .error m => .error m
      else if c = 't' then
        match expectLit ['r', 'u', 'e'] rest with
        | .ok rem => .ok (.bool true, rem)
        | .error m => .error m
      else if c = 'f' then
        match expectLit ['a', 'l', 's', 'e'] rest with
        | .ok rem => .ok (.bool false, rem)
        | .error m => .error m
      else if c = 'n' then
        match expectLit ['u', 'l', 'l'] rest with
        | .ok rem => .ok (.null, rem)
        | .error m => .error m
      else if c = '-' || c.isDigit then parseNumber (c :: rest)
      else .error "expecting value"

/-- Parse the remaining `"key": value` fields of a JSON object (at least
one field expected). -/
def parseFields : Nat → List Char → List (String × Value) →
    Except String (Value × List Char)
  | 0, _, _ => .error "depth limit"
  | fuel + 1, cs, acc =>
    match skipWs cs with
    | '"' :: rest =>
      match parseStringBody rest with
      | .error m => .error m
      | .ok (key, rem1) =>
        match skipWs rem1 with
        | ':' :: rem2 =>
          match parseValue fuel rem2 with
          | .error m => .error m
          | .ok (v, rem3) =>
            match skipWs rem3 with
            | ',' :: rem4 => parseFields fuel rem4 (acc ++ [(key, v)])
            | '}' :: rem4 => .ok (.dict (acc ++ [(key, v)]), rem4)
            | _ => .error "expecting comma or closing brace"
        | _ => .error "expecting colon"
    | _ => .error "expecting property name"

/-- Parse the remaining items of a JSON array (at least one item
expected). -/
def parseItems : Nat → List Char → List Value →
    Except String (Value × List Char)
  | 0, _, _ => .error "depth limit"
  | fuel + 1, cs, acc =>
    match parseValue fuel cs with
    | .error m => .error m
    | .ok (v, rem) =>
      match skipWs rem with
      | ',' :: rem2 => parseItems fuel rem2 (acc ++ [v])
      | ']' :: rem2 => .ok (.list (acc ++ [v]), rem2)
      | _ => .error "expecting comma or closing bracket"

end

/-- Model of Python `json.loads`: parse one JSON document, requiring the
whole input to be consumed; `.error` models the raised
`json.JSONDecodeError`. -/
def json_loads (s : String) : Except String Value :=
  match parseValue (s.length + 1) s.data with
  | .error m => .error m
  | .ok (v, rem) => if (skipWs rem).isEmpty then .ok v else .error "Extra data"

/-! ### The Tool Invoker and the `run` boundary (base.py lines 104-244) -/

/-- The `ValueError` message raised by `call_tool` for an unknown tool name
(base.py line 164).  The Python rendering quotes each available name; the
quotes are elided here. -/
def unknownToolMsg (tools : Tools) (tool_name : String) : String :=
  "Unknown tool: " ++ tool_name ++ ". Available: " ++
    String.intercalate ", " (tools.map Prod.fst)

/-- The JSON-decode step of `call_tool` (base.py lines 173-178): a string
result is returned parsed when it is valid JSON, else raw; non-string
results are returned unchanged. -/
def parseToolResult : Value → Value
  | .str s =>
    match json_loads s with
    | .ok v => v
    | .error _ => .str s
  | v => v

/-- `Action.call_tool` (base.py lines 152-187).  Unknown tool: raises
before the record is created, so the trace is unchanged.  Known tool:
appends a record with the raw result on success and returns the parsed
result; on the tool raising, appends a record carrying the error message
and re-raises. -/
def call_tool (tools : Tools) (tool_name : String)
    (args : List (String × Value)) (st : ActionState) :
    ActionState × Except String Value :=
  match tools.lookup tool_name with
  | none => (st, .error (unknownToolMsg tools tool_name))
  | some f =>
    match f (.dict args) with
    | .ok r =>
      ({ tool_calls := st.tool_calls ++
          [{ tool_name := tool_name, arguments := args, result := some r }] },
        .ok (parseToolResult r))
    | .error e =>
      ({ tool_calls := st.tool_calls ++
          [{ tool_name := tool_name, arguments := args, error := some e }] },
        .error e)

/-- `Action.complete` (base.py lines 189-202): a result with the given
output and status (default `SUCCESS`), no error, and a snapshot of the
trace so far. -/
def completeResult (name : String) (output : Option Value)
    (status : ActionStatus) (st : ActionState) : ActionResult :=
  { action_name := name, status := status, output := output, error := none,
    tool_calls := st.tool_calls }

/-- `Action.fail` (base.py lines 204-213): a `FAILED` result carrying the
error message and a snapshot of the trace so far. -/
def failResult (name : String) (msg : String) (st : ActionState) : ActionResult :=
  { action_name := name, status := .failed, output := none, error := some msg,
    tool_calls := st.tool_calls }

/-- An action body (the `execute` method), embedded as a tree: `call`
invokes a tool and continues with its parsed value; `completeP` and `failP`
return through the `complete` / `fail` helpers; `throwP` raises an
uncaught exception with the given message.  As in every action of this
repository, a tool error re-raised by `call_tool` is not caught inside
`execute`. -/
inductive Prog where
  | call : String → List (String × Value) → (Value → Prog) → Prog
  | completeP : Option Value → ActionStatus → Prog
  | failP : String → Prog
  | throwP : String → Prog

/-- Run an `execute` body: thread the trace state through each tool call;
an error (tool error, unknown tool, or `throwP`) aborts the body and is
returned together with the trace accumulated so far. -/
def runProg (tools : Tools) (name : String) :
    Prog → ActionState → ActionState × Except String ActionResult
  | .call tn args k, st =>
    match call_tool tools tn args st with
    | (st2, .ok v) => runProg tools name (k v) st2
    | (st2, .error e) => (st2, .error e)
  | .completeP o s, st => (st, .ok (completeResult name o s st))
  | .failP m, st => (st, .ok (failResult name m st))
  | .throwP m, st => (st, .error m)

/-- `Action.run` (base.py lines 226-244): reset the trace, invoke
`execute`, return its result on normal return; on an uncaught error,
catch it and return `self.fail(str(e))` — a Failed result carrying the
error message and the trace accumulated up to the failure.  `run` is a
total function: it never raises. -/
def Action.run (tools : Tools) (name : String) (p : Prog) : ActionResult :=
  match runProg tools name p {} with
  | (_, .ok r) => r
  | (st, .error e) => failResult name e st

/-! ### Serialization (`to_dict`, base.py lines 44-52 and 72-83) -/

/-- Model of Python `s.startswith(pre)` over character lists. -/
def pyStartsWith (s pre : String) : Bool := pre.data.isPrefixOf s.data

/-- `ToolCall.to_dict` (base.py lines 44-52).  The `result` field is passed
through `json.loads` whenever it is a string starting with `"{"` — the
parse is unguarded, so its failure propagates (`.error`). -/
def ToolCall.to_dict (tc : ToolCall) : Except String (List (String × Value)) :=
  match
    (match tc.result with
     | some (.str s) => if pyStartsWith s "\x7b" then json_loads s else .ok (.str s)
     | some v => .ok v
     | none => .ok .null : Except String Value)
  with
  | .error m => .error m
  | .ok rv =>
    .ok [("tool_name", .str tc.tool_name),
         ("arguments", .dict tc.arguments),
         ("result", rv),
         ("error", (tc.error.map Value.str).getD .null),
         ("duration_ms", .num tc.duration_ms),
         ("timestamp", .str tc.timestamp)]

/-- The list comprehension `[tc.to_dict() for tc in self.tool_calls]`
(base.py line 79): serialize the trace records in order, propagating the
first raised error. -/
def serializeTrace : List ToolCall → Except String (List (List (String × Value)))
  | [] => .ok []
  | tc :: rest =>
    match tc.to_dict with
    | .error m => .error m
    | .ok d =>
      match serializeTrace rest with
      | .error m => .error m
      | .ok ds => .ok (d :: ds)

/-- `ActionResult.to_dict` (base.py lines 72-83): serializes every trace
record through `ToolCall.to_dict`, so a failing record serialization
propagates. -/
def ActionResult.to_dict (r : ActionResult) :
    Except String (List (String × Value)) :=
  match serializeTrace r.tool_calls with
  | .error m => .error m
  | .ok tcs =>
    .ok [("execution_id", .str r.execution_id),
         ("action_name", .str r.action_name),
         ("status", .str r.status.value),
         ("output", r.output.getD .null),
         ("error", (r.error.map Value.str).getD .null),
         ("tool_calls", .list (tcs.map Value.dict)),
         ("tools_used", .list (r.tools_used.map Value.str)),
         ("duration_ms", .num r.duration_ms),
         ("timestamp", .str r.timestamp)]

/-! ### Keyword extraction (`DailyBriefingAction._extract_keywords`,
definitions.py lines 494-521) -/

/-- A Python dict record (meeting, email) as passed around definitions.py. -/
abbrev PyDict := List (String × Value)

/-- `m.get(k, dflt)` where the caller expects a string: a present
non-string value is rendered with `pyStr` (Python would carry it onward
and possibly raise later; no claim reaches this case). -/
def getStrD (m : PyDict) (k : String) (dflt : String) : String :=
  match m.lookup k with
  | some v => pyStr v
  | none => dflt

/-- `m.get(k, [])` where the caller expects a list. -/
def getListD (m : PyDict) (k : String) : List Value :=
  match m.lookup k with
  | some (.list xs) => xs
  | _ => []

/-- ASCII lowercasing of one character; Python `str.lower` additionally
lowers non-ASCII letters, which no claim involves. -/
def lowerChar (c : Char) : Char :=
  if 'A' ≤ c && c ≤ 'Z' then Char.ofNat (c.toNat + 32) else c

/-- Model of Python `s.lower()`. -/
def pyLower (s : String) : String := String.mk (s.data.map lowerChar)

/-- The stopword set of `_extract_keywords` (definitions.py lines
497-504). -/
def stopwords : List String :=
  ["the", "a", "an", "and", "or", "but", "in", "on", "at", "to", "for",
   "of", "with", "by", "from", "as", "is", "was", "are", "were", "been",
   "be", "have", "has", "had", "do", "does", "did", "will", "would",
   "could", "should", "may", "might", "must", "shall", "can", "need",
   "meeting", "call", "sync", "discussion", "review", "update", "weekly",
   "monthly", "daily", "team", "group", "re", "fwd", "fw"]

/-- A regex word character (`\w`): ASCII letter, digit or underscore; any
non-ASCII character is treated as a word constituent, approximating
Python's Unicode-aware `\w`. -/
def isWordChar (c : Char) : Bool :=
  c.isAlpha || c.isDigit || c = '_' || c.toNat ≥ 128

/-- An ASCII lowercase letter (`[a-z]`). -/
def isLowerAlpha (c : Char) : Bool := 'a' ≤ c && c ≤ 'z'

/-- Maximal runs of characters satisfying `p`, in order; the second
argument is the (reversed) run being accumulated. -/
def runsBy (p : Char → Bool) : List Char → List Char → List (List Char)
  | [], cur => if cur.isEmpty then [] else [cur.reverse]
  | c :: cs, cur =>
    if p c then runsBy p cs (c :: cur)
    else if cur.isEmpty then runsBy p cs []
    else cur.reverse :: runsBy p cs []

/-- Model of `re.findall(r'\b[a-z]{3,}\b', text)` on the (already
lowercased) text: the matches are exactly the maximal `\w`-runs that
consist solely of 3 or more lowercase letters — a run adjacent to a digit
or underscore has no word boundary and is not matched. -/
def findallTokens (text : String) : List String :=
  (runsBy isWordChar text.data []).filterMap
    (fun rn =>
      if rn.length ≥ 3 && rn.all isLowerAlpha then some (String.mk rn) else none)

/-- The filter-and-dedupe loop of `_extract_keywords` (definitions.py lines
514-519): keep words that are neither stopwords nor already seen,
preserving first-occurrence order. -/
def filterDedup : List String → List String → List String
  | [], _ => []
  | w :: ws, seen =>
    if !(stopwords.contains w) && !(seen.contains w) then
      w :: filterDedup ws (w :: seen)
    else
      filterDedup ws seen

/-- `DailyBriefingAction._extract_keywords` (definitions.py lines 494-521):
lowercase `subject + " " + body`, tokenize with the `\b[a-z]{3,}\b` regex,
drop stopwords, dedupe preserving first occurrence, truncate to 10. -/
def extract_keywords (subject body : String) : List String :=
  (filterDedup (findallTokens (pyLower (subject ++ " " ++ body))) []).take 10

/-- Modelled from the spec (§4.4), for comparison with the source: the
same pipeline but with the spec's words for the tokenizer — "tokenize into
runs of 3+ alphabetic characters" — i.e. maximal alphabetic runs of length
at least 3, with no condition on adjacent digits or underscores. -/
def extract_keywords_spec (subject body : String) : List String :=
  (filterDedup
    ((runsBy isLowerAlpha (pyLower (subject ++ " " ++ body)).data []).filterMap
      (fun rn => if rn.length ≥ 3 then some (String.mk rn) else none))
    []).take 10

/-! ### Conflict detection and delegate suggestion
(`DailyBriefingAction._detect_conflicts` and
`_find_alternative_contributors`, definitions.py lines 316-407) -/

/-- A delegate candidate accumulated by `_find_alternative_contributors`:
one entry of `contributor_scores`.  The Python `topics` set is modelled as
an insertion-ordered duplicate-free list. -/
structure Contributor where
  name : String
  emailAddr : String
  score : Nat
  topics : List String
deriving DecidableEq, Repr

/-- One detected conflict (definitions.py lines 340-347). -/
structure Conflict where
  meeting1 : String
  meeting2 : String
  time1 : String
  time2 : String
  alternatives1 : List Contributor
  alternatives2 : List Contributor
deriving DecidableEq, Repr

/-- Substring test on character lists, modelling Python `needle in hay`. -/
def listInfix (needle : List Char) : List Char → Bool
  | [] => needle.isEmpty
  | c :: t => needle.isPrefixOf (c :: t) || listInfix needle t

/-- The lowercased searchable text of an email (definitions.py lines
379-381): `subject` plus `bodyPreview` falling back to `body`. -/
def emailTextOf (e : PyDict) : String :=
  let subj := pyLower (getStrD e "subject" "")
  let body := pyLower
    (match e.lookup "bodyPreview" with
     | some v => pyStr v
     | none => getStrD e "body" "")
  subj ++ " " ++ body

/-- The keywords of `keywords` occurring as substrings of `text`
(definitions.py lines 384 and 398). -/
def matchedKeywords (keywords : List String) (text : String) : List String :=
  keywords.filter (fun kw => listInfix kw.data text.data)

/-- The exclusion set built from a meeting's attendees (definitions.py
lines 369-373): each attendee's name (a dict's `"name"` entry, else its
string form), lowercased. -/
def excludeNamesOf (exclude : List Value) : List String :=
  exclude.map (fun a =>
    pyLower (match a with
     | .dict d => pyStr ((d.lookup "name").getD (.dict d))
     | v => pyStr v))

/-- The sender name of an email (definitions.py lines 389-390). -/
def senderNameOf (e : PyDict) : String :=
  match (e.lookup "from").getD (.dict []) with
  | .dict d => getStrD d "name" ""
  | v => pyStr v

/-- The sender address of an email (definitions.py line 391). -/
def senderEmailOf (e : PyDict) : String :=
  match (e.lookup "from").getD (.dict []) with
  | .dict d => getStrD d "email" ""
  | _ => ""

/-- Update `contributor_scores` for one qualifying email (definitions.py
lines 394-398): create the sender's entry on first sight, then add the
match count to its score and union the matched keywords into its topics
(set union modelled as append-if-absent, preserving insertion order). -/
def updateContrib : List Contributor → String → String → Nat → List String →
    List Contributor
  | [], n, em, k, tp => [{ name := n, emailAddr := em, score := k, topics := tp }]
  | c :: cs, n, em, k, tp =>
    if c.name = n then
      { c with score := c.score + k,
               topics := c.topics ++ tp.filter (fun t => !c.topics.contains t) } :: cs
    else
      c :: updateContrib cs n em k tp

/-- The per-email step of the `_find_alternative_contributors` loop
(definitions.py lines 378-398): skip emails with zero keyword matches and
emails whose sender name is empty or (case-insensitively) excluded;
otherwise attribute the match count to the sender. -/
def addEmail (keywords : List String) (excl : List String)
    (acc : List Contributor) (e : PyDict) : List Contributor :=
  let matched := matchedKeywords keywords (emailTextOf e)
  if matched.length = 0 then acc
  else
    let sname := senderNameOf e
    if sname != "" && !(excl.contains (pyLower sname)) then
      updateContrib acc sname (senderEmailOf e) matched.length matched
    else acc

/-- Stable descending insertion by score: the new element goes before the
first strictly smaller score, hence after all earlier elements of equal
score — the stability of Python's `sorted(..., reverse=True)`. -/
def insertByScoreDesc (x : Contributor) : List Contributor → List Contributor
  | [] => [x]
  | y :: ys => if x.score > y.score then x :: y :: ys else y :: insertByScoreDesc x ys

/-- Model of `sorted(values, key=score, reverse=True)` (stable). -/
def sortByScoreDesc (l : List Contributor) : List Contributor :=
  l.foldl (fun acc x => insertByScoreDesc x acc) []

/-- The keywords extracted from a meeting's subject and body
(definitions.py lines 364-366). -/
def meetingKeywords (meeting : PyDict) : List String :=
  extract_keywords (getStrD meeting "subject" "") (getStrD meeting "body" "")

/-- The `contributor_scores` accumulation loop of
`_find_alternative_contributors` (definitions.py lines 376-398), folded
over the email corpus in order; entries are keyed by sender name in
first-seen order. -/
def contributorScores (meeting : PyDict) (emails : List PyDict)
    (exclude : List Value) : List Contributor :=
  emails.foldl (addEmail (meetingKeywords meeting) (excludeNamesOf exclude)) []

/-- `DailyBriefingAction._find_alternative_contributors` (definitions.py
lines 362-407): extract the meeting's keywords, build the exclusion set,
fold the email corpus into per-sender scores, sort by score descending
(stable), take the top 3, and cap each reported topic list at 3. -/
def find_alternative_contributors (meeting : PyDict) (emails : List PyDict)
    (exclude : List Value) : List Contributor :=
  ((sortByScoreDesc (contributorScores meeting emails exclude)).take 3).map
    (fun c => { c with topics := c.topics.take 3 })

/-- Lexicographic comparison of character lists by code point. -/
def charListLt : List Char → List Char → Bool
  | [], [] => false
  | [], _ :: _ => true
  | _ :: _, [] => false
  | a :: as, b :: bs =>
    if a < b then true
    else if b < a then false
    else charListLt as bs

/-- Model of Python string `<`: lexicographic by code point. -/
def pyStrLt (s t : String) : Bool := charListLt s.data t.data

/-- The `is_conflict` computation of `_detect_conflicts` (definitions.py
lines 328-337) for one ordered pair of meetings: with all four times
present (non-empty strings), conflict iff `start1 < end2 and start2 <
end1` (Python string comparison on ISO times); with only the start times
present, conflict iff they are equal. -/
def isConflictPair (m1 m2 : PyDict) : Bool :=
  let start1 := getStrD m1 "start" ""
  let end1 := getStrD m1 "end" ""
  let start2 := getStrD m2 "start" ""
  let end2 := getStrD m2 "end" ""
  if start1 != "" && start2 != "" && end1 != "" && end2 != "" then
    pyStrLt start1 end2 && pyStrLt start2 end1
  else if start1 != "" && start2 != "" then
    start1 == start2
  else
    false

/-- The conflict record built by `_detect_conflicts` (definitions.py lines
339-358) when a pair conflicts; alternatives are computed only when the
email corpus is non-empty (`if emails:`). -/
def pairConflict (emails : List PyDict) (m1 m2 : PyDict) : Option Conflict :=
  let start1 := getStrD m1 "start" ""
  let start2 := getStrD m2 "start" ""
  if isConflictPair m1 m2 then
    some { meeting1 := getStrD m1 "subject" "Unknown",
           meeting2 := getStrD m2 "subject" "Unknown",
           time1 := start1,
           time2 := start2,
           alternatives1 :=
             if emails.isEmpty then []
             else find_alternative_contributors m1 emails (getListD m1 "attendees"),
           alternatives2 :=
             if emails.isEmpty then []
             else find_alternative_contributors m2 emails (getListD m2 "attendees") }
  else none

/-- `DailyBriefingAction._detect_conflicts` (definitions.py lines 316-360):
scan every pair `(i, j)` with `i < j` in input order and collect the
conflicts. -/
def detect_conflicts (meetings : List PyDict) (emails : List PyDict) :
    List Conflict :=
  match meetings with
  | [] => []
  | m1 :: rest => rest.filterMap (pairConflict emails m1) ++ detect_conflicts rest emails

/-! ### `MeetingPrepAction.execute` (definitions.py lines 102-156) -/

/-- `v.get(k, dflt)` expecting a string, on a `Value` dict. -/
def Value.getStr (v : Value) (k : String) (dflt : String) : String :=
  match v with
  | .dict xs =>
    match xs.lookup k with
    | some w => pyStr w
    | none => dflt
  | _ => dflt

/-- The output dict built by `MeetingPrepAction.execute` (definitions.py
lines 149-154). -/
def meetingPrepOutput (meeting related : Value) (organizer : Option Value)
    (subject : String) : Value :=
  .dict [("meeting", meeting),
         ("related_emails", related.getKeyD "results" (.list [])),
         ("organizer_info", organizer.getD .null),
         ("prep_notes", .str ("Meeting: " ++ subject))]

/-- The tail of `MeetingPrepAction.execute` after a meeting is selected
(definitions.py lines 136-156): search related emails, look up the
organizer when one is named, and complete. -/
def meetingPrepTail (meeting : Value) : Prog :=
  let subject := meeting.getStr "subject" ""
  .call "search_emails" [("query", .str subject), ("limit", .num 5)] (fun related =>
    let organizer_name := meeting.getStr "organizer" ""
    if organizer_name != "" then
      .call "find_colleague" [("name", .str organizer_name)] (fun organizer =>
        .completeP (some (meetingPrepOutput meeting related (some organizer) subject))
          .success)
    else
      .completeP (some (meetingPrepOutput meeting related none subject)) .success)

/-- `MeetingPrepAction.execute` (definitions.py lines 117-156) as a `Prog`
over the execution context's variables: without a `meeting_id`, fall back
from today's meetings to the 7-day calendar and fail with "No upcoming
meetings found" when both are empty; with one, search for it and fail when
the search returns nothing. -/
def meetingPrepExecute (ctx : List (String × Value)) : Prog :=
  let mid := (ctx.lookup "meeting_id").getD .null
  if !mid.truthy then
    .call "get_todays_meetings" [] (fun today =>
      if (today.getKey "meetings").truthy then
        meetingPrepTail (firstItem (today.getKey "meetings"))
      else
        .call "get_calendar" [("days", .num 7)] (fun cal =>
          if (cal.getKey "meetings").truthy then
            meetingPrepTail (firstItem (cal.getKey "meetings"))
          else
            .failP "No upcoming meetings found"))
  else
    .call "search_meetings" [("query", mid), ("limit", .num 1)] (fun ms =>
      if !(ms.getKey "results").truthy then
        .failP ("Meeting not found: " ++ pyStr mid)
      else
        meetingPrepTail (firstItem (ms.getKey "results")))

/-- A capability map under which every tool call of `meeting_prep`
succeeds but the action still fails: today's calendar and the 7-day
calendar are both empty. -/
def emptyCalendarTools : Tools :=
  [("get_todays_meetings", fun _ =>
      .ok (.dict [("date", .str "2026-10-12"), ("count", .num 0),
                  ("meetings", .list [])])),
   ("get_calendar", fun _ =>
      .ok (.dict [("meetings", .list [])]))]

/-! ## Theorems -/

/-- A demonstration capability map with a single always-succeeding tool. -/
def demoTools : Tools := [("t", fun _ => .ok .null)]

/-- C1: for every capability map, action body and execution context, when
`execute` raises an uncaught exception (the body's evaluation ends in an
error), `Action.run` does not raise — it is a total function by
construction — and returns a Failed ActionResult carrying the exception's
message and the tool-call trace accumulated up to the failure point. -/
theorem run_isolates_execute_failures (tools : Tools) (name : String)
    (p : Prog) (st : ActionState) (e : String)
    (h : runProg tools name p {} = (st, .error e)) :
    Action.run tools name p =
      { action_name := name, status := .failed, output := none,
        error := some e, tool_calls := st.tool_calls } := by
  unfold Action.run
  rw [h]
  rfl

theorem run_isolates_execute_failures_witness :
    Action.run demoTools "demo" (.call "t" [] (fun _ => .throwP "boom")) =
      { action_name := "demo", status := .failed, output := none,
        error := some "boom",
        tool_calls := [{ tool_name := "t", arguments := [], result := some .null }] } :=
  run_isolates_execute_failures demoTools "demo"
    (.call "t" [] (fun _ => .throwP "boom"))
    { tool_calls := [{ tool_name := "t", arguments := [], result := some .null }] }
    "boom" rfl

/-- C3 (amended): for every action execution in which every tool call made
during `execute` succeeds and `execute` itself terminates normally (its
body evaluates to a result, rather than raising), `run` returns exactly
that result; in particular the catch boundary never converts it to Failed.
A Failed result with an all-successful trace can still arise — when
`execute` itself returns a `fail` result, as the counterexample below
shows. -/
theorem run_returns_execute_result (tools : Tools) (name : String)
    (p : Prog) (st : ActionState) (r : ActionResult)
    (h : runProg tools name p {} = (st, .ok r)) :
    Action.run tools name p = r ∧
    (r.status ≠ .failed → (Action.run tools name p).status ≠ .failed) := by
  have hrun : Action.run tools name p = r := by
    unfold Action.run
    rw [h]
  exact ⟨hrun, fun hs => hrun ▸ hs⟩

theorem run_returns_execute_result_witness :
    Action.run demoTools "w3" (.completeP (some (.str "done")) .success) =
      completeResult "w3" (some (.str "done")) .success { tool_calls := [] } ∧
    (Action.run demoTools "w3" (.completeP (some (.str "done")) .success)).status ≠
      .failed :=
  have h := run_returns_execute_result demoTools "w3"
    (.completeP (some (.str "done")) .success) { tool_calls := [] }
    (completeResult "w3" (some (.str "done")) .success { tool_calls := [] }) rfl
  ⟨h.1, h.2 (by decide)⟩

/-- C3 (counterexample to the claim as stated): running the embedded
`MeetingPrepAction.execute` with a context lacking a `meeting_id` against
a capability map whose two calendar tools both succeed (returning empty
meeting lists) yields a Failed result — every tool call succeeded (two
trace records, both error-free) yet `run` returns status Failed, because
`execute` itself returned `self.fail("No upcoming meetings found")`. -/
theorem meeting_prep_fails_with_successful_tools :
    (Action.run emptyCalendarTools "meeting_prep" (meetingPrepExecute [])).status =
      .failed ∧
    (Action.run emptyCalendarTools "meeting_prep" (meetingPrepExecute [])).error =
      some "No upcoming meetings found" ∧
    (Action.run emptyCalendarTools "meeting_prep" (meetingPrepExecute [])).tool_calls.length =
      2 ∧
    (Action.run emptyCalendarTools "meeting_prep" (meetingPrepExecute [])).tool_calls.all
      (fun tc => tc.error.isNone) = true :=
  ⟨rfl, rfl, rfl, rfl⟩

/-- C5: for every capability map and every tool name absent from it,
`call_tool` raises the `Unknown tool` ValueError synchronously — before
any call attempt — and leaves the trace unchanged: no ToolCallRecord is
appended. -/
theorem call_tool_unknown_tool (tools : Tools) (tool_name : String)
    (args : List (String × Value)) (st : ActionState)
    (h : tools.lookup tool_name = none) :
    call_tool tools tool_name args st =
      (st, .error (unknownToolMsg tools tool_name)) := by
  unfold call_tool
  rw [h]

theorem call_tool_unknown_tool_witness :
    call_tool demoTools "missing" [] { tool_calls := [] } =
      ({ tool_calls := [] }, .error (unknownToolMsg demoTools "missing")) ∧
    unknownToolMsg demoTools "missing" = "Unknown tool: missing. Available: t" :=
  ⟨call_tool_unknown_tool demoTools "missing" [] { tool_calls := [] } rfl, rfl⟩

/-- No reachable `complete` leaf of an action body carries the `FAILED`
status.  The `complete` helper accepts an arbitrary status argument, and
every action of this repository calls it with the default `SUCCESS`. -/
def noFailedComplete : Prog → Prop
  | .call _ _ k => ∀ v, noFailedComplete (k v)
  | .completeP _ s => s ≠ .failed
  | .failP _ => True
  | .throwP _ => True

/-- When an action body evaluates to a result (no uncaught exception) and
never uses `complete` with the Failed status, the result satisfies the
status/error/output invariants and its trace is the final accumulated
trace. -/
theorem runProg_ok_invariant (tools : Tools) (name : String) :
    ∀ p : Prog, noFailedComplete p →
      ∀ (st st2 : ActionState) (r : ActionResult),
        runProg tools name p st = (st2, .ok r) →
        ((r.status = .failed → r.error.isSome ∧ r.output = none) ∧
         (r.status = .success → r.error = none) ∧
         r.tool_calls = st2.tool_calls) := by
  intro p
  induction p with
  | call tn args k ih =>
    intro hnf st st2 r h
    rw [runProg] at h
    cases hc : call_tool tools tn args st with
    | mk st1 out =>
      rw [hc] at h
      cases out with
      | ok v => exact ih v (hnf v) st1 st2 r h
      | error e => simp at h
  | completeP o s =>
    intro hnf st st2 r h
    rw [runProg] at h
    obtain ⟨h1, h2⟩ := Prod.mk.injEq .. ▸ h
    obtain rfl := h1
    obtain rfl : completeResult name o s st = r := by
      simpa using h2
    refine ⟨fun hs => absurd ?_ hnf, fun _ => rfl, rfl⟩
    exact hs
  | failP m =>
    intro hnf st st2 r h
    rw [runProg] at h
    obtain ⟨h1, h2⟩ := Prod.mk.injEq .. ▸ h
    obtain rfl := h1
    obtain rfl : failResult name m st = r := by
      simpa using h2
    exact ⟨fun _ => ⟨rfl, rfl⟩, fun hs => by simp [failResult] at hs, rfl⟩
  | throwP m =>
    intro hnf st st2 r h
    rw [runProg] at h
    simp at h

/-- C2 (amended): for every action run whose body never invokes `complete`
with an explicit Failed status (the helper permits it, but no action of
this repository does): status Failed implies the error message is present
and the output absent; status Success implies the error is absent; and the
result always carries exactly the trace accumulated by the run — for a
Failed result, the partial trace collected before the failure.  The error
message need not be non-empty: it is whatever the supplied or caught
message was (see the counterexample). -/
theorem action_result_status_invariants (tools : Tools) (name : String)
    (p : Prog) (h : noFailedComplete p) :
    ((Action.run tools name p).status = .failed →
      (Action.run tools name p).error.isSome ∧
      (Action.run tools name p).output = none) ∧
    ((Action.run tools name p).status = .success →
      (Action.run tools name p).error = none) ∧
    (Action.run tools name p).tool_calls =
      (runProg tools name p {}).1.tool_calls := by
  cases hr : runProg tools name p {} with
  | mk st out =>
    cases out with
    | ok r =>
      have hinv := runProg_ok_invariant tools name p h {} st r hr
      have hrun : Action.run tools name p = r := by
        unfold Action.run
        rw [hr]
      rw [hrun]
      exact hinv
    | error e =>
      have hrun : Action.run tools name p = failResult name e st := by
        unfold Action.run
        rw [hr]
      rw [hrun]
      refine ⟨fun _ => ⟨rfl, rfl⟩, fun hs => ?_, rfl⟩
      simp [failResult] at hs

/-- A capability map with a single tool that raises an exception whose
message is empty (Python `raise Exception()`). -/
def emptyMsgTools : Tools := [("t", fun _ => .error "")]

/-- C2 (counterexample to the claim as stated): (a) a tool raising an
exception with an empty message produces, through `run`'s catch boundary,
a Failed result whose error message is present but empty — refuting
"non-empty error message"; (b) the `complete` helper invoked with the
Failed status produces a Failed result with an output and no error —
refuting "status Failed implies error present and output absent" for
results produced via `complete`. -/
theorem result_invariants_counterexample :
    ((Action.run emptyMsgTools "a" (.call "t" [] (fun _ => .completeP none .success))).status =
        .failed ∧
      (Action.run emptyMsgTools "a" (.call "t" [] (fun _ => .completeP none .success))).error =
        some "") ∧
    ((Action.run [] "b" (.completeP (some (.str "out")) .failed)).status = .failed ∧
      (Action.run [] "b" (.completeP (some (.str "out")) .failed)).error = none ∧
      (Action.run [] "b" (.completeP (some (.str "out")) .failed)).output.isSome =
        true) :=
  ⟨⟨rfl, rfl⟩, rfl, rfl, rfl⟩

theorem action_result_status_invariants_witness :
    (Action.run demoTools "w2" (.failP "nope")).error.isSome = true ∧
    (Action.run demoTools "w2" (.failP "nope")).output = none ∧
    (Action.run demoTools "w2" (.failP "nope")).tool_calls =
      (runProg demoTools "w2" (.failP "nope") {}).1.tool_calls :=
  have h := action_result_status_invariants demoTools "w2" (.failP "nope") True.intro
  ⟨(h.1 rfl).1, (h.1 rfl).2, h.2.2⟩

/-- A straight-line action body: a sequence of tool calls followed by a
terminal. -/
def seqCalls : List (String × List (String × Value)) → Prog → Prog
  | [], p => p
  | c :: rest, p => .call c.1 c.2 (fun _ => seqCalls rest p)

/-- Running a straight-line body whose calls all succeed, ending in an
uncaught raise: the body errors with the raised message and appends one
successful record per call. -/
theorem runProg_seqCalls_throw (tools : Tools) (name m : String) :
    ∀ (calls : List (String × List (String × Value))) (st : ActionState),
      (∀ c ∈ calls, ∃ f v, tools.lookup c.1 = some f ∧ f (.dict c.2) = .ok v) →
      ∃ recs : List ToolCall,
        runProg tools name (seqCalls calls (.throwP m)) st =
          ({ tool_calls := st.tool_calls ++ recs }, .error m) ∧
        recs.length = calls.length ∧
        ∀ tc ∈ recs, tc.error = none := by
  intro calls
  induction calls with
  | nil =>
    intro st _
    refine ⟨[], ?_, rfl, by simp⟩
    simp [seqCalls, runProg]
  | cons c rest ih =>
    intro st hs
    obtain ⟨f, v, hf, hv⟩ := hs c (List.mem_cons_self c rest)
    have hrest := fun x hx => hs x (List.mem_cons_of_mem c hx)
    obtain ⟨recs, hrun, hlen, herr⟩ :=
      ih { tool_calls := st.tool_calls ++
            [{ tool_name := c.1, arguments := c.2, result := some v }] } hrest
    refine ⟨{ tool_name := c.1, arguments := c.2, result := some v } :: recs,
      ?_, by simp [hlen], ?_⟩
    · have hct : call_tool tools c.1 c.2 st =
          ({ tool_calls := st.tool_calls ++
              [{ tool_name := c.1, arguments := c.2, result := some v }] },
            .ok (parseToolResult v)) := by
        unfold call_tool
        rw [hf]
        simp only [hv]
      rw [seqCalls, runProg, hct]
      simp only [hrun]
      simp [List.append_assoc]
    · intro tc htc
      rcases List.mem_cons.mp htc with rfl | hmem
      · rfl
      · exact herr tc hmem

/-- C4: for every capability map and every straight-line `execute` body
that makes N tool calls — all of which the capability map answers
successfully — and then raises an uncaught error, the Failed ActionResult
returned by `run` carries that error and a trace with exactly N entries,
all of them successful. -/
theorem failed_trace_counts_successful_calls (tools : Tools) (name m : String)
    (calls : List (String × List (String × Value))) (n : Nat)
    (hsucc : ∀ c ∈ calls, ∃ f v, tools.lookup c.1 = some f ∧ f (.dict c.2) = .ok v)
    (hn : calls.length = n) :
    (Action.run tools name (seqCalls calls (.throwP m))).status = .failed ∧
    (Action.run tools name (seqCalls calls (.throwP m))).error = some m ∧
    (Action.run tools name (seqCalls calls (.throwP m))).tool_calls.length = n ∧
    ∀ tc ∈ (Action.run tools name (seqCalls calls (.throwP m))).tool_calls,
      tc.error = none := by
  obtain ⟨recs, hrun, hlen, herr⟩ := runProg_seqCalls_throw tools name m calls {} hsucc
  have hres : Action.run tools name (seqCalls calls (.throwP m)) =
      failResult name m { tool_calls := [] ++ recs } := by
    unfold Action.run
    rw [hrun]
  rw [hres]
  refine ⟨rfl, rfl, ?_, ?_⟩
  · simpa [failResult] using hlen.trans hn
  · intro tc htc
    refine herr tc ?_
    simpa [failResult] using htc

theorem failed_trace_counts_successful_calls_witness :
    (Action.run demoTools "w4" (seqCalls [("t", [])] (.throwP "later"))).status =
      .failed ∧
    (Action.run demoTools "w4" (seqCalls [("t", [])] (.throwP "later"))).error =
      some "later" ∧
    (Action.run demoTools "w4" (seqCalls [("t", [])] (.throwP "later"))).tool_calls.length =
      1 ∧
    ({ tool_name := "t", arguments := [], result := some .null : ToolCall }).error =
      none :=
  have h := failed_trace_counts_successful_calls demoTools "w4" "later"
    [("t", [])] 1
    (by
      intro c hc
      rw [List.mem_singleton] at hc
      subst hc
      exact ⟨fun _ => .ok .null, .null, rfl, rfl⟩)
    rfl
  ⟨h.1, h.2.1, h.2.2.1,
    h.2.2.2 { tool_name := "t", arguments := [], result := some .null }
      (List.mem_singleton.mpr rfl)⟩

/-- If any record of a trace fails to serialize, serializing the whole
trace fails. -/
theorem serializeTrace_isError (tc : ToolCall) :
    ∀ l : List ToolCall, tc ∈ l → isError tc.to_dict = true →
      isError (serializeTrace l) = true := by
  intro l
  induction l with
  | nil =>
    intro h
    cases h
  | cons x xs ih =>
    intro hmem herr
    rw [serializeTrace]
    rcases List.mem_cons.mp hmem with rfl | hx
    · cases hd : tc.to_dict with
      | error m => rfl
      | ok d =>
        rw [hd] at herr
        simp [isError] at herr
    · cases hd : x.to_dict with
      | error m => rfl
      | ok d =>
        have htail := ih hx herr
        cases ht : serializeTrace xs with
        | error m => rfl
        | ok ds =>
          rw [ht] at htail
          simp [isError] at htail

/-- C10: serializing a ToolCallRecord is not total: for every record whose
result is a string that starts with `"{"` but is not valid JSON, `to_dict`
raises (the `json.loads` call is unguarded) — and consequently serializing
any ActionResult whose trace contains such a record raises too, even when
the result's status is Success. -/
theorem tool_call_to_dict_not_total (tc : ToolCall) (s : String)
    (h1 : tc.result = some (.str s)) (h2 : pyStartsWith s "\x7b" = true)
    (h3 : isError (json_loads s) = true) :
    isError tc.to_dict = true ∧
    ∀ r : ActionResult, tc ∈ r.tool_calls → isError r.to_dict = true := by
  have hbase : isError tc.to_dict = true := by
    unfold ToolCall.to_dict
    rw [h1]
    simp only [h2, if_true]
    cases hj : json_loads s with
    | error m => rfl
    | ok v =>
      rw [hj] at h3
      simp [isError] at h3
  refine ⟨hbase, fun r hmem => ?_⟩
  unfold ActionResult.to_dict
  have htr := serializeTrace_isError tc r.tool_calls hmem hbase
  cases ht : serializeTrace r.tool_calls with
  | error m => rfl
  | ok ds =>
    rw [ht] at htr
    simp [isError] at htr

/-- A trace record whose tool call succeeded but whose string result
starts with `"{"` without being valid JSON. -/
def badRecord : ToolCall :=
  { tool_name := "t", arguments := [], result := some (.str "\x7boops") }

/-- A successful ActionResult whose trace contains `badRecord`. -/
def badSuccess : ActionResult :=
  { action_name := "a", status := .success, output := some .null,
    tool_calls := [badRecord] }

theorem tool_call_to_dict_not_total_witness :
    isError badRecord.to_dict = true ∧
    isError badSuccess.to_dict = true ∧
    badSuccess.status = .success ∧
    badRecord.error = none :=
  have h := tool_call_to_dict_not_total badRecord "\x7boops" rfl rfl rfl
  ⟨h.1, h.2 badSuccess (List.mem_singleton.mpr rfl), rfl, rfl⟩

/-- On a two-meeting list the conflict scan reduces to the single pairwise
check. -/
theorem detect_conflicts_pair (m1 m2 : PyDict) (emails : List PyDict) :
    detect_conflicts [m1, m2] emails = (pairConflict emails m1 m2).toList := by
  cases h : pairConflict emails m1 m2 <;>
    simp [detect_conflicts, List.filterMap_cons, h]

/-- A two-meeting scan reports exactly one conflict iff the pairwise
conflict test holds. -/
theorem detect_pair_length (m1 m2 : PyDict) (emails : List PyDict) :
    (detect_conflicts [m1, m2] emails).length = 1 ↔ isConflictPair m1 m2 = true := by
  rw [detect_conflicts_pair]
  unfold pairConflict
  cases h : isConflictPair m1 m2 <;> simp [h]

/-- Scenario meeting 10:00-10:30. -/
def mtgA : PyDict :=
  [("subject", .str "Standup"), ("start", .str "10:00"), ("end", .str "10:30")]

/-- Scenario meeting 10:15-10:45. -/
def mtgB : PyDict :=
  [("subject", .str "Design session"), ("start", .str "10:15"), ("end", .str "10:45")]

/-- Scenario meeting 10:30-11:00. -/
def mtgC : PyDict :=
  [("subject", .str "Status"), ("start", .str "10:30"), ("end", .str "11:00")]

/-- C6: for every pair of meetings with both start and end times present
(non-empty), the detector reports a conflict iff the half-open intervals
overlap (`start1 < end2` and `start2 < end1`, Python string comparison on
the time strings); with an end time missing but both starts present, the
check degrades to exact start-time equality; and in particular 10:00-10:30
conflicts with 10:15-10:45 while 10:00-10:30 does not conflict with
10:30-11:00 (a shared boundary is not overlap). -/
theorem conflict_detection_interval_rule :
    (∀ (m1 m2 : PyDict) (emails : List PyDict),
        getStrD m1 "start" "" ≠ "" → getStrD m2 "start" "" ≠ "" →
        getStrD m1 "end" "" ≠ "" → getStrD m2 "end" "" ≠ "" →
        ((detect_conflicts [m1, m2] emails).length = 1 ↔
          (pyStrLt (getStrD m1 "start" "") (getStrD m2 "end" "") = true ∧
           pyStrLt (getStrD m2 "start" "") (getStrD m1 "end" "") = true))) ∧
    (∀ (m1 m2 : PyDict) (emails : List PyDict),
        getStrD m1 "start" "" ≠ "" → getStrD m2 "start" "" ≠ "" →
        (getStrD m1 "end" "" = "" ∨ getStrD m2 "end" "" = "") →
        ((detect_conflicts [m1, m2] emails).length = 1 ↔
          getStrD m1 "start" "" = getStrD m2 "start" "")) ∧
    (detect_conflicts [mtgA, mtgB] []).length = 1 ∧
    (detect_conflicts [mtgA, mtgC] []).length = 0 := by
  refine ⟨?_, ?_, ?_, ?_⟩
  · intro m1 m2 emails hs1 hs2 he1 he2
    rw [detect_pair_length]
    unfold isConflictPair
    have hcond : (getStrD m1 "start" "" != "" && getStrD m2 "start" "" != "" &&
        getStrD m1 "end" "" != "" && getStrD m2 "end" "" != "") = true := by
      simp [bne_iff_ne, hs1, hs2, he1, he2]
    simp [hcond]
  · intro m1 m2 emails hs1 hs2 hend
    rw [detect_pair_length]
    unfold isConflictPair
    have hcond : (getStrD m1 "start" "" != "" && getStrD m2 "start" "" != "" &&
        getStrD m1 "end" "" != "" && getStrD m2 "end" "" != "") = false := by
      rcases hend with he | he <;> simp [he]
    have hcond2 : (getStrD m1 "start" "" != "" && getStrD m2 "start" "" != "") = true := by
      simp [bne_iff_ne, hs1, hs2]
    simp [hcond, hcond2]
    intro h1 h2
    rcases hend with he | he
    · exact absurd he h1
    · exact absurd he h2
  · decide
  · decide

theorem conflict_detection_interval_rule_witness :
    (detect_conflicts
      [[("start", Value.str "09:00"), ("end", Value.str "09:45")],
       [("start", Value.str "09:30"), ("end", Value.str "10:00")]] []).length = 1 ∧
    (detect_conflicts
      [[("start", Value.str "08:00")], [("start", Value.str "08:00")]] []).length = 1 :=
  have h1 := conflict_detection_interval_rule.1
    [("start", Value.str "09:00"), ("end", Value.str "09:45")]
    [("start", Value.str "09:30"), ("end", Value.str "10:00")] []
    (by decide) (by decide) (by decide) (by decide)
  have h2 := conflict_detection_interval_rule.2.1
    [("start", Value.str "08:00")] [("start", Value.str "08:00")] []
    (by decide) (by decide) (Or.inl (by decide))
  ⟨h1.mpr (by decide), h2.mpr (by decide)⟩

/-- Modelled from the spec as amended by the counterexample below: the
extractor's tokenizer is the regex `\b[a-z]{3,}\b` — the tokens are the
maximal word-character runs that consist wholly of 3 or more (lowercase)
letters, so an alphabetic run adjacent to a digit or underscore yields no
token; the rest of the pipeline (stopword filter, first-occurrence
dedupe, truncation to 10) is as the spec states. -/
def extract_keywords_spec_amended (subject body : String) : List String :=
  (filterDedup
    (((runsBy isWordChar (pyLower (subject ++ " " ++ body)).data []).filter
      (fun rn => rn.length ≥ 3 && rn.all isLowerAlpha)).map String.mk)
    []).take 10

/-- A `filterMap` whose function is a guarded `some` is a filter followed
by a map. -/
theorem filterMap_if_eq_filter_map {α β : Type} (p : α → Bool) (f : α → β) :
    ∀ l : List α,
      l.filterMap (fun x => if p x then some (f x) else none) = (l.filter p).map f := by
  intro l
  induction l with
  | nil => rfl
  | cons x xs ih =>
    by_cases h : p x <;> simp [List.filterMap_cons, List.filter_cons, h, ih]

/-- The regex-model tokenizer as a filter-then-map. -/
theorem findallTokens_eq_filter_map (text : String) :
    findallTokens text = ((runsBy isWordChar text.data []).filter
      (fun rn => rn.length ≥ 3 && rn.all isLowerAlpha)).map String.mk := by
  unfold findallTokens
  exact filterMap_if_eq_filter_map _ _ _

/-- Every word kept by the filter-and-dedupe loop occurs in its input, is
not a stopword, and was not in the already-seen set. -/
theorem mem_filterDedup : ∀ (l seen : List String) (w : String),
    w ∈ filterDedup l seen →
      w ∈ l ∧ stopwords.contains w = false ∧ seen.contains w = false := by
  intro l
  induction l with
  | nil =>
    intro seen w h
    cases h
  | cons x xs ih =>
    intro seen w h
    rw [filterDedup] at h
    split at h
    next hb =>
      simp only [Bool.and_eq_true, Bool.not_eq_true'] at hb
      rcases List.mem_cons.mp h with rfl | hmem
      · exact ⟨List.mem_cons_self _ _, hb.1, hb.2⟩
      · obtain ⟨hw1, hw2, hw3⟩ := ih (x :: seen) w hmem
        rw [List.contains_cons] at hw3
        simp only [Bool.or_eq_false_iff] at hw3
        exact ⟨List.mem_cons_of_mem x hw1, hw2, hw3.2⟩
    next hb =>
      obtain ⟨hw1, hw2, hw3⟩ := ih seen w h
      exact ⟨List.mem_cons_of_mem x hw1, hw2, hw3⟩

/-- The filter-and-dedupe loop never emits a word twice. -/
theorem nodup_filterDedup : ∀ (l seen : List String), (filterDedup l seen).Nodup := by
  intro l
  induction l with
  | nil =>
    intro seen
    exact List.nodup_nil
  | cons x xs ih =>
    intro seen
    rw [filterDedup]
    split
    next hb =>
      rw [List.nodup_cons]
      refine ⟨fun hmem => ?_, ih (x :: seen)⟩
      obtain ⟨_, _, hw3⟩ := mem_filterDedup xs (x :: seen) x hmem
      simp [List.contains_cons] at hw3
    next hb => exact ih seen

/-- Every token produced by the regex model consists solely of lowercase
letters and has length at least 3. -/
theorem mem_findallTokens (text : String) (w : String)
    (h : w ∈ findallTokens text) :
    w.data.all isLowerAlpha = true ∧ w.data.length ≥ 3 := by
  unfold findallTokens at h
  obtain ⟨rn, hrn, hw⟩ := List.mem_filterMap.mp h
  revert hw
  split
  next hcond =>
    intro hw
    obtain rfl := Option.some.inj hw
    simp only [Bool.and_eq_true, decide_eq_true_iff] at hcond
    exact ⟨hcond.2, hcond.1⟩
  next =>
    intro hw
    cases hw

/-- C7 (amended): `extract` equals the spec's pipeline with the tokenizer
read as the regex `\b[a-z]{3,}\b` actually in the source (maximal
word-character runs wholly alphabetic, length at least 3) — rather than
as arbitrary "runs of 3+ alphabetic characters" — and its output is an
ordered sequence of at most 10 distinct lowercase non-stopword terms of
length at least 3.  Determinism is immediate: the extractor is a pure
function of its two inputs. -/
theorem extract_keywords_algorithm (subject body : String) :
    extract_keywords subject body = extract_keywords_spec_amended subject body ∧
    (extract_keywords subject body).length ≤ 10 ∧
    (extract_keywords subject body).Nodup ∧
    (extract_keywords subject body).all
      (fun w => w.data.all isLowerAlpha && decide (w.data.length ≥ 3) &&
        !(stopwords.contains w)) = true := by
  refine ⟨?_, ?_, ?_, ?_⟩
  · unfold extract_keywords extract_keywords_spec_amended
    rw [findallTokens_eq_filter_map]
  · unfold extract_keywords
    simp only [List.length_take]
    exact min_le_left _ _
  · exact (List.take_sublist _ _).nodup (nodup_filterDedup _ _)
  · rw [List.all_eq_true]
    intro w hw
    unfold extract_keywords at hw
    have hmem := List.mem_of_mem_take hw
    obtain ⟨hw1, hstop, _⟩ := mem_filterDedup _ _ w hmem
    obtain ⟨hal, hlen⟩ := mem_findallTokens _ w hw1
    simp at hstop
    have hlen2 : 3 ≤ w.length := hlen
    simp [hal, hlen2, hstop]

/-- C7 (counterexample to the claim as stated): on subject `"abc1"` the
spec's tokenization — runs of 3+ alphabetic characters — extracts
`"abc"`, but the source's regex `\b[a-z]{3,}\b` matches nothing: the
run `abc` is followed by the word character `1`, so it has no closing
word boundary.  The extractor therefore returns `[]` where the claim's
algorithm returns `["abc"]`. -/
theorem keyword_tokenization_counterexample :
    extract_keywords "abc1" "" = [] ∧
    extract_keywords_spec "abc1" "" = ["abc"] := by
  exact ⟨by decide, by decide⟩

/-- C8 (amended): on the scenario input, `extract` excludes `"re"` (too
short for the 3+ tokenizer; it is also a stopword) and `"sync"` (a
stopword), but retains `"discuss"` — the stopword set contains only
`"discussion"` — yielding exactly `["spark", "pipeline", "discuss",
"optimization"]`; in particular `spark`, `pipeline`, `optimization`
appear in first-seen order. -/
theorem keyword_scenario_amended :
    extract_keywords "Re: Q3 Spark Pipeline Sync"
        "Discuss Spark optimization for the pipeline" =
      ["spark", "pipeline", "discuss", "optimization"] ∧
    "re" ∉ extract_keywords "Re: Q3 Spark Pipeline Sync"
        "Discuss Spark optimization for the pipeline" ∧
    "sync" ∉ extract_keywords "Re: Q3 Spark Pipeline Sync"
        "Discuss Spark optimization for the pipeline" ∧
    ["spark", "pipeline", "optimization"].Sublist
      (extract_keywords "Re: Q3 Spark Pipeline Sync"
        "Discuss Spark optimization for the pipeline") := by
  refine ⟨by decide, by decide, by decide, ?_⟩
  have h : extract_keywords "Re: Q3 Spark Pipeline Sync"
      "Discuss Spark optimization for the pipeline" =
      ["spark", "pipeline", "discuss", "optimization"] := by decide
  rw [h]
  exact .cons₂ _ (.cons₂ _ (.cons _ (.cons₂ _ .slnil)))

/-- C8 (counterexample to the claim as stated): `"discuss"` is not
excluded — it appears in the extracted keywords, because the stopword set
contains `"discussion"` but not `"discuss"`. -/
theorem keyword_scenario_counterexample :
    "discuss" ∈ extract_keywords "Re: Q3 Spark Pipeline Sync"
      "Discuss Spark optimization for the pipeline" := by
  decide

/-- Every entry of an updated `contributor_scores` has either the inserted
sender's name or the name of an already-present entry. -/
theorem updateContrib_names (Q : String → Prop) :
    ∀ (acc : List Contributor) (n em : String) (k : Nat) (tp : List String),
      (∀ c ∈ acc, Q c.name) → Q n →
      ∀ c ∈ updateContrib acc n em k tp, Q c.name := by
  intro acc
  induction acc with
  | nil =>
    intro n em k tp _ hn c hc
    rw [updateContrib] at hc
    obtain rfl := List.mem_singleton.mp hc
    exact hn
  | cons c0 cs ih =>
    intro n em k tp hacc hn c hc
    rw [updateContrib] at hc
    split at hc
    next heq =>
      rcases List.mem_cons.mp hc with rfl | hmem
      · exact hacc c0 (List.mem_cons_self _ _)
      · exact hacc c (List.mem_cons_of_mem _ hmem)
    next hne =>
      rcases List.mem_cons.mp hc with rfl | hmem
      · exact hacc c (List.mem_cons_self _ _)
      · exact ih n em k tp (fun d hd => hacc d (List.mem_cons_of_mem _ hd)) hn c hmem

/-- One step of the contributor loop preserves "every entry has a
non-empty, non-excluded sender name". -/
theorem addEmail_preserves (keywords excl : List String) (e : PyDict)
    (acc : List Contributor)
    (h : ∀ c ∈ acc, c.name ≠ "" ∧ excl.contains (pyLower c.name) = false) :
    ∀ c ∈ addEmail keywords excl acc e,
      c.name ≠ "" ∧ excl.contains (pyLower c.name) = false := by
  intro c hc
  simp only [addEmail] at hc
  split at hc
  next => exact h c hc
  next =>
    split at hc
    next hguard =>
      simp only [Bool.and_eq_true, bne_iff_ne, Bool.not_eq_true'] at hguard
      exact updateContrib_names
        (fun nm => nm ≠ "" ∧ excl.contains (pyLower nm) = false)
        acc _ _ _ _ h ⟨hguard.1, hguard.2⟩ c hc
    next => exact h c hc

/-- Accumulated contributors all carry a non-empty, non-excluded sender
name. -/
theorem foldl_addEmail_inv (keywords excl : List String) :
    ∀ (emails : List PyDict) (acc : List Contributor),
      (∀ c ∈ acc, c.name ≠ "" ∧ excl.contains (pyLower c.name) = false) →
      ∀ c ∈ emails.foldl (addEmail keywords excl) acc,
        c.name ≠ "" ∧ excl.contains (pyLower c.name) = false := by
  intro emails
  induction emails with
  | nil =>
    intro acc h
    simpa using h
  | cons e es ih =>
    intro acc h
    rw [List.foldl_cons]
    exact ih _ (addEmail_preserves keywords excl e acc h)

/-- An email with zero keyword matches leaves the accumulator unchanged. -/
theorem addEmail_no_match (keywords excl : List String) (acc : List Contributor)
    (e : PyDict) (h : matchedKeywords keywords (emailTextOf e) = []) :
    addEmail keywords excl acc e = acc := by
  simp [addEmail, h]

/-- A corpus with no matching email accumulates nothing. -/
theorem foldl_addEmail_empty (keywords excl : List String) :
    ∀ (emails : List PyDict) (acc : List Contributor),
      (∀ e ∈ emails, matchedKeywords keywords (emailTextOf e) = []) →
      emails.foldl (addEmail keywords excl) acc = acc := by
  intro emails
  induction emails with
  | nil =>
    intro acc _
    rfl
  | cons e es ih =>
    intro acc h
    rw [List.foldl_cons,
      addEmail_no_match keywords excl acc e (h e (List.mem_cons_self _ _))]
    exact ih acc fun x hx => h x (List.mem_cons_of_mem _ hx)

/-- Stable descending insertion is a permutation of consing. -/
theorem insertByScoreDesc_perm (x : Contributor) :
    ∀ l : List Contributor, List.Perm (insertByScoreDesc x l) (x :: l) := by
  intro l
  induction l with
  | nil => exact List.Perm.refl _
  | cons y ys ih =>
    rw [insertByScoreDesc]
    split
    next => exact List.Perm.refl _
    next => exact (List.Perm.cons y ih).trans (List.Perm.swap x y ys)

/-- Stable descending insertion preserves score-descending sortedness. -/
theorem insertByScoreDesc_sorted (x : Contributor) :
    ∀ l : List Contributor, l.Pairwise (fun a b => b.score ≤ a.score) →
      (insertByScoreDesc x l).Pairwise (fun a b => b.score ≤ a.score) := by
  intro l
  induction l with
  | nil =>
    intro _
    exact List.pairwise_singleton _ _
  | cons y ys ih =>
    intro hp
    have hp2 := List.pairwise_cons.mp hp
    rw [insertByScoreDesc]
    split
    next hgt =>
      refine List.pairwise_cons.mpr ⟨?_, hp⟩
      intro b hb
      rcases List.mem_cons.mp hb with rfl | hmem
      · exact Nat.le_of_lt hgt
      · exact (hp2.1 b hmem).trans (Nat.le_of_lt hgt)
    next hle =>
      refine List.pairwise_cons.mpr ⟨?_, ih hp2.2⟩
      intro b hb
      have hb2 := (insertByScoreDesc_perm x ys).mem_iff.mp hb
      rcases List.mem_cons.mp hb2 with rfl | hmem
      · exact Nat.le_of_not_lt hle
      · exact hp2.1 b hmem

/-- Inserting into a score-descending list places the new element after
every earlier element of equal score: filtering any score class shows the
new element appended last. -/
theorem insertByScoreDesc_filter (x : Contributor) (k : Nat) :
    ∀ l : List Contributor, l.Pairwise (fun a b => b.score ≤ a.score) →
      (insertByScoreDesc x l).filter (fun c => c.score == k) =
        (if x.score = k
         then l.filter (fun c => c.score == k) ++ [x]
         else l.filter (fun c => c.score == k)) := by
  intro l
  induction l with
  | nil =>
    intro _
    rw [insertByScoreDesc]
    by_cases hk : x.score = k <;> simp [hk]
  | cons y ys ih =>
    intro hp
    have hp2 := List.pairwise_cons.mp hp
    rw [insertByScoreDesc]
    split
    next hgt =>
      by_cases hk : x.score = k
      · have hnone : (y :: ys).filter (fun c => c.score == k) = [] := by
          rw [List.filter_eq_nil_iff]
          intro c hc
          have hcle : c.score ≤ y.score := by
            rcases List.mem_cons.mp hc with rfl | hmem
            · exact Nat.le_refl _
            · exact hp2.1 c hmem
          have : c.score ≠ k := by
            subst hk
            exact Nat.ne_of_lt (Nat.lt_of_le_of_lt hcle hgt)
          simp [this]
        simp [List.filter_cons, hk, hnone]
      · simp [List.filter_cons, hk]
    next hle =>
      rw [List.filter_cons, List.filter_cons, ih hp2.2]
      by_cases hk : x.score = k <;> by_cases hyk : y.score = k <;>
        simp [hk, hyk]

/-- Folding stable insertion keeps the accumulator sorted. -/
theorem foldl_insert_sorted :
    ∀ (l acc : List Contributor),
      acc.Pairwise (fun a b => b.score ≤ a.score) →
      (l.foldl (fun acc x => insertByScoreDesc x acc) acc).Pairwise
        (fun a b => b.score ≤ a.score) := by
  intro l
  induction l with
  | nil =>
    intro acc h
    simpa using h
  | cons x xs ih =>
    intro acc h
    rw [List.foldl_cons]
    exact ih _ (insertByScoreDesc_sorted x acc h)

/-- The stable sort is a permutation of its input. -/
theorem foldl_insert_perm :
    ∀ (l acc : List Contributor),
      List.Perm (l.foldl (fun acc x => insertByScoreDesc x acc) acc) (acc ++ l) := by
  intro l
  induction l with
  | nil =>
    intro acc
    simp
  | cons x xs ih =>
    intro acc
    rw [List.foldl_cons]
    refine (ih _).trans ?_
    refine (List.Perm.append_right xs (insertByScoreDesc_perm x acc)).trans ?_
    exact List.perm_middle.symm

/-- Per score class, folding stable insertion appends in input order. -/
theorem foldl_insert_filter (k : Nat) :
    ∀ (l acc : List Contributor),
      acc.Pairwise (fun a b => b.score ≤ a.score) →
      (l.foldl (fun acc x => insertByScoreDesc x acc) acc).filter
          (fun c => c.score == k) =
        acc.filter (fun c => c.score == k) ++ l.filter (fun c => c.score == k) := by
  intro l
  induction l with
  | nil =>
    intro acc _
    simp
  | cons x xs ih =>
    intro acc h
    rw [List.foldl_cons, ih _ (insertByScoreDesc_sorted x acc h),
      insertByScoreDesc_filter x k acc h, List.filter_cons]
    by_cases hk : x.score = k <;> simp [hk]

/-- The model of `sorted(..., key=score, reverse=True)` is stable: within
every score class the output preserves the input (first-seen) order. -/
theorem sortByScoreDesc_filter (l : List Contributor) (k : Nat) :
    (sortByScoreDesc l).filter (fun c => c.score == k) =
      l.filter (fun c => c.score == k) := by
  have h := foldl_insert_filter k l [] List.Pairwise.nil
  simpa [sortByScoreDesc] using h

/-- C9: the delegate suggestion `_find_alternative_contributors` returns
at most 3 candidates, each reporting at most 3 matched topic keywords and
carrying a non-empty sender name that is not (case-insensitively) in the
exclusion set built from the attendees; a corpus in which every email has
zero keyword matches yields no candidates; the candidates are sorted by
cumulative score descending; and the sort is stable, so ties are broken by
first-seen order in the accumulated (input-ordered) sender sequence. -/
theorem alternative_contributors_ranking (meeting : PyDict)
    (emails : List PyDict) (exclude : List Value) :
    (find_alternative_contributors meeting emails exclude).length ≤ 3 ∧
    (∀ c ∈ find_alternative_contributors meeting emails exclude,
      c.topics.length ≤ 3) ∧
    (∀ c ∈ find_alternative_contributors meeting emails exclude,
      c.name ≠ "" ∧ (excludeNamesOf exclude).contains (pyLower c.name) = false) ∧
    ((∀ e ∈ emails,
        matchedKeywords (meetingKeywords meeting) (emailTextOf e) = []) →
      find_alternative_contributors meeting emails exclude = []) ∧
    (find_alternative_contributors meeting emails exclude).Pairwise
      (fun a b => b.score ≤ a.score) ∧
    (∀ k : Nat,
      (sortByScoreDesc (contributorScores meeting emails exclude)).filter
          (fun c => c.score == k) =
        (contributorScores meeting emails exclude).filter
          (fun c => c.score == k)) := by
  refine ⟨?_, ?_, ?_, ?_, ?_, fun k => sortByScoreDesc_filter _ k⟩
  · unfold find_alternative_contributors
    rw [List.length_map]
    simp only [List.length_take]
    exact min_le_left _ _
  · intro c hc
    unfold find_alternative_contributors at hc
    obtain ⟨c0, hc0, rfl⟩ := List.mem_map.mp hc
    simp only [List.length_take]
    exact min_le_left _ _
  · intro c hc
    unfold find_alternative_contributors at hc
    obtain ⟨c0, hc0, rfl⟩ := List.mem_map.mp hc
    have hc1 := List.mem_of_mem_take hc0
    have hc2 : c0 ∈ contributorScores meeting emails exclude :=
      (foldl_insert_perm (contributorScores meeting emails exclude) []).mem_iff.mp hc1
    exact foldl_addEmail_inv (meetingKeywords meeting) (excludeNamesOf exclude)
      emails [] (fun d hd => absurd hd (List.not_mem_nil d)) c0 hc2
  · intro hz
    unfold find_alternative_contributors
    have h0 : contributorScores meeting emails exclude = [] :=
      foldl_addEmail_empty (meetingKeywords meeting) (excludeNamesOf exclude)
        emails [] hz
    rw [h0]
    rfl
  · unfold find_alternative_contributors
    have hs := foldl_insert_sorted (contributorScores meeting emails exclude) []
      List.Pairwise.nil
    have ht : ((sortByScoreDesc (contributorScores meeting emails exclude)).take
        3).Pairwise (fun a b => b.score ≤ a.score) :=
      List.Pairwise.sublist (List.take_sublist 3 _) hs
    rw [List.pairwise_map]
    exact ht.imp fun h => h

/-- Concrete meeting for the C9 witness. -/
def wMeeting : PyDict :=
  [("subject", .str "Spark Pipeline planning"), ("body", .str "")]

/-- Concrete attendee exclusion for the C9 witness. -/
def wExclude : List Value := [.str "Alice"]

/-- Concrete email corpus for the C9 witness: one match by an excluded
sender, two by Dana, one by Erin. -/
def wEmails : List PyDict :=
  [[("from", .dict [("name", .str "Alice")]), ("subject", .str "Spark stuff")],
   [("from", .dict [("name", .str "Dana"), ("email", .str "dana@x")]),
    ("subject", .str "Re: spark pipeline")],
   [("from", .dict [("name", .str "Erin")]), ("subject", .str "pipeline news")],
   [("from", .dict [("name", .str "Dana")]),
    ("subject", .str "planning spark session")]]

theorem alternative_contributors_ranking_witness :
    (find_alternative_contributors wMeeting wEmails wExclude).length ≤ 3 ∧
    (⟨"Dana", "dana@x", 4, ["spark", "pipeline", "planning"]⟩ : Contributor) ∈
      find_alternative_contributors wMeeting wEmails wExclude ∧
    ("Dana" ≠ "" ∧ (excludeNamesOf wExclude).contains (pyLower "Dana") = false) ∧
    find_alternative_contributors wMeeting [] wExclude = [] ∧
    (sortByScoreDesc (contributorScores wMeeting wEmails wExclude)).filter
        (fun c => c.score == 1) =
      (contributorScores wMeeting wEmails wExclude).filter
        (fun c => c.score == 1) :=
  have h := alternative_contributors_ranking wMeeting wEmails wExclude
  have h0 := alternative_contributors_ranking wMeeting [] wExclude
  ⟨h.1, by decide,
    h.2.2.1 ⟨"Dana", "dana@x", 4, ["spark", "pipeline", "planning"]⟩ (by decide),
    h0.2.2.2.1 (fun e he => absurd he (List.not_mem_nil e)),
    h.2.2.2.2.2 1⟩

end ExchangeCopilot
